import Mathlib

/-!
Verification of the XML plist codec (streaming reader, streaming writer and
the generic serialization bridge) of the rust-plist repository.

The development shallowly embeds the three source files:

* `src/xml/reader.rs` — `StreamingParser` (here `parserNext`, one step of the
  iterator, and `parseEvents`, the iterator driven to completion);
* `src/xml/writer.rs` — `EventWriter` (here `write`, with its helper
  `maybe_end_plist` and the post-state-check dispatch `dispatchEvent`);
* `src/ser.rs` — the serde `Serializer` (here `single_key_dict`,
  `serialize_none`, `serialize_some`, `serialize_seq`, `serialize_map`, ...).

Modelling conventions:

* The underlying XML tokenizer/emitter pair (the external `xml-rs` crate) is
  treated, as the specification prescribes, as a lossless transport with a
  fixed token vocabulary: `XmlToken`.  A byte stream is represented by the
  token list the tokenizer produces from it; end of the token list is the
  tokenizer reporting end of document.
* The external value codecs (decimal formatting/parsing of `i64` and `f64`,
  MIME base64, RFC3339 dates from the `rustc-serialize` and `chrono` crates)
  are pure external functions; they are a parameter `Codecs` of the
  development.  The payload types of `f64` reals and `chrono` dates are the
  type parameters `ρ` and `δ`.
* Machine integers: `i64` payloads are `Int`, `u64` is `Nat` with an explicit
  `< 2 ^ 64` bound and a two's-complement cast `i64_of_u64`.
-/

deriving instance DecidableEq for Except

namespace Plist

variable {ρ δ : Type}

/-- Modelled from the spec: the plist event stream data model
(`PlistEvent`, declared in the crate root which is not under `src/`; the
spec fixes the closed variant set and every variant below is produced or
consumed by `reader.rs`, `writer.rs` or `ser.rs`).  `ρ` is the payload
type of `f64` reals, `δ` that of `chrono` UTC dates. -/
inductive PlistEvent (ρ δ : Type) where
  | StartPlist
  | EndPlist
  | StartArray (len : Option Nat)
  | EndArray
  | StartDictionary (len : Option Nat)
  | EndDictionary
  | BooleanValue (b : Bool)
  | IntegerValue (i : Int)
  | RealValue (r : ρ)
  | StringValue (s : String)
  | DataValue (d : List Nat)
  | DateValue (d : δ)
  deriving DecidableEq

/-- Modelled from the spec: the reader error type (`ParserError`, declared
in the crate root which is not under `src/`).  `InvalidData` and
`UnexpectedEof` are used directly by `reader.rs`; `DateParse` models the
propagated `chrono` RFC3339 parse error, which the spec says propagates as
its own failure unlike the other content errors (the `From` conversion
backing the source `try!` is also in the crate root). -/
inductive ParserError where
  | InvalidData
  | UnexpectedEof
  | DateParse
  deriving DecidableEq

/-- Modelled from the spec: the writer/serializer error type (`Error`,
declared in the crate root which is not under `src/`).  `InvalidData` and
the wrapped serde message error are used by `writer.rs` and `ser.rs`; `Io`
is the pass-through transport error (never produced by this model, whose
transport cannot fail). -/
inductive Error where
  | InvalidData
  | Io
  | Serde (msg : String)
  deriving DecidableEq

/-- The tag-level token vocabulary of the XML tokenizer/emitter transport
(`xml-rs` events, external collaborator).  `Skipped` stands for any token
kind the reader's wildcard arm ignores (comments are already dropped and
whitespace/CDATA already folded into `Characters` by the parser config). -/
inductive XmlToken where
  | StartElement (name : String) (attrs : List (String × String))
  | EndElement (name : String)
  | Characters (s : String)
  | Skipped
  deriving DecidableEq

/-- The external pure value codecs (decimal `i64`/`f64` formatting and
parsing, MIME base64, RFC3339 dates), a parameter of the development. -/
structure Codecs (ρ δ : Type) where
  intEnc : Int → String
  intDec : String → Option Int
  realEnc : ρ → String
  realDec : String → Option ρ
  dateEnc : δ → String
  dateDec : String → Option δ
  dataEnc : List Nat → String
  dataDec : String → Option (List Nat)

/-- Source `StreamingParser::read_content`: fetch the next tokenizer token, demand
character data and feed it to `f`; anything else (including end of input) is
`InvalidData`.  The token is consumed either way; the element stack `st`
(with the just-opened element already pushed) is returned unchanged. -/
def readContent (ts : List XmlToken) (st : List String)
    (f : String → Except ParserError (PlistEvent ρ δ)) :
    Except ParserError (PlistEvent ρ δ) × List XmlToken × List String :=
  match ts with
  | .Characters s :: ts2 => (f s, ts2, st)
  | _ :: ts2 => (.error .InvalidData, ts2, st)
  | [] => (.error .InvalidData, [], st)

/-- Source `StreamingParser::next` (`reader.rs`): one step of the iterator over a
token list and element-name stack.  `none` is the iterator reporting the end
of the sequence; `some (r, ts, st)` yields `r` with remaining tokens `ts`
and element stack `st`.  Start tags are dispatched on the element name
exactly as the source `match`; end tags pop and check the name stack;
tokens outside the handled kinds are skipped by the loop. -/
def parserNext (C : Codecs ρ δ) :
    List XmlToken → List String →
    Option (Except ParserError (PlistEvent ρ δ) × List XmlToken × List String)
  | [], stack =>
    if stack = [] then none else some (.error .UnexpectedEof, [], stack)
  | .StartElement name _ :: ts, stack =>
    let st := name :: stack
    if name = "plist" then some (.ok .StartPlist, ts, st)
    else if name = "array" then some (.ok (.StartArray none), ts, st)
    else if name = "dict" then some (.ok (.StartDictionary none), ts, st)
    else if name = "key" then
      some (readContent ts st (fun s => .ok (.StringValue s)))
    else if name = "true" then some (.ok (.BooleanValue true), ts, st)
    else if name = "false" then some (.ok (.BooleanValue false), ts, st)
    else if name = "data" then
      some (readContent ts st (fun s =>
        match C.dataDec s with
        | some b => .ok (.DataValue b)
        | none => .error .InvalidData))
    else if name = "date" then
      some (readContent ts st (fun s =>
        match C.dateDec s with
        | some d => .ok (.DateValue d)
        | none => .error .DateParse))
    else if name = "integer" then
      some (readContent ts st (fun s =>
        match C.intDec s with
        | some i => .ok (.IntegerValue i)
        | none => .error .InvalidData))
    else if name = "real" then
      some (readContent ts st (fun s =>
        match C.realDec s with
        | some r => .ok (.RealValue r)
        | none => .error .InvalidData))
    else if name = "string" then
      some (readContent ts st (fun s => .ok (.StringValue s)))
    else some (.error .InvalidData, ts, st)
  | .EndElement name :: ts, stack =>
    match stack with
    | [] => some (.error .InvalidData, ts, [])
    | top :: rest =>
      if top = name then
        if name = "array" then some (.ok .EndArray, ts, rest)
        else if name = "dict" then some (.ok .EndDictionary, ts, rest)
        else if name = "plist" then some (.ok .EndPlist, ts, rest)
        else parserNext C ts rest
      else some (.error .InvalidData, ts, rest)
  | .Characters _ :: ts, stack => parserNext C ts stack
  | .Skipped :: ts, stack => parserNext C ts stack

/-- The reader iterator driven to completion, as its consumers use it:
collect the yielded events, stopping at the end of the sequence or at the
first error (after which the instance is discarded).  Same recursion as
`parserNext` with the collection inlined; `parseEvents_next` below proves
the two agree step by step. -/
def parseEvents (C : Codecs ρ δ) :
    List XmlToken → List String → List (Except ParserError (PlistEvent ρ δ))
  | [], stack => if stack = [] then [] else [.error .UnexpectedEof]
  | .StartElement name _ :: ts, stack =>
    let st := name :: stack
    if name = "plist" then .ok .StartPlist :: parseEvents C ts st
    else if name = "array" then .ok (.StartArray none) :: parseEvents C ts st
    else if name = "dict" then
      .ok (.StartDictionary none) :: parseEvents C ts st
    else if name = "key" then
      match ts with
      | .Characters s :: ts2 => .ok (.StringValue s) :: parseEvents C ts2 st
      | _ :: _ => [.error .InvalidData]
      | [] => [.error .InvalidData]
    else if name = "true" then
      .ok (.BooleanValue true) :: parseEvents C ts st
    else if name = "false" then
      .ok (.BooleanValue false) :: parseEvents C ts st
    else if name = "data" then
      match ts with
      | .Characters s :: ts2 =>
        match C.dataDec s with
        | some b => .ok (.DataValue b) :: parseEvents C ts2 st
        | none => [.error .InvalidData]
      | _ :: _ => [.error .InvalidData]
      | [] => [.error .InvalidData]
    else if name = "date" then
      match ts with
      | .Characters s :: ts2 =>
        match C.dateDec s with
        | some d => .ok (.DateValue d) :: parseEvents C ts2 st
        | none => [.error .DateParse]
      | _ :: _ => [.error .InvalidData]
      | [] => [.error .InvalidData]
    else if name = "integer" then
      match ts with
      | .Characters s :: ts2 =>
        match C.intDec s with
        | some i => .ok (.IntegerValue i) :: parseEvents C ts2 st
        | none => [.error .InvalidData]
      | _ :: _ => [.error .InvalidData]
      | [] => [.error .InvalidData]
    else if name = "real" then
      match ts with
      | .Characters s :: ts2 =>
        match C.realDec s with
        | some r => .ok (.RealValue r) :: parseEvents C ts2 st
        | none => [.error .InvalidData]
      | _ :: _ => [.error .InvalidData]
      | [] => [.error .InvalidData]
    else if name = "string" then
      match ts with
      | .Characters s :: ts2 => .ok (.StringValue s) :: parseEvents C ts2 st
      | _ :: _ => [.error .InvalidData]
      | [] => [.error .InvalidData]
    else [.error .InvalidData]
  | .EndElement name :: ts, stack =>
    match stack with
    | [] => [.error .InvalidData]
    | top :: rest =>
      if top = name then
        if name = "array" then .ok .EndArray :: parseEvents C ts rest
        else if name = "dict" then .ok .EndDictionary :: parseEvents C ts rest
        else if name = "plist" then .ok .EndPlist :: parseEvents C ts rest
        else parseEvents C ts rest
      else [.error .InvalidData]
  | .Characters _ :: ts, stack => parseEvents C ts stack
  | .Skipped :: ts, stack => parseEvents C ts stack

/-- Writer dictionary frame phase (`DictionaryState` in `writer.rs`). -/
inductive DictionaryState where
  | ExpectKey
  | ExpectValue
  deriving DecidableEq

/-- Writer stack frames (`Element` in `writer.rs`). -/
inductive Element where
  | Dictionary (s : DictionaryState)
  | Array
  | Root
  deriving DecidableEq

/-- The writer's state: its frame stack (head is the top, the `Vec` end) and
the token stream already handed to the XML emitter transport.  Mutations made
before an error persist, as they do on the Rust `&mut self`. -/
structure WriterState where
  stack : List Element
  out : List XmlToken
  deriving DecidableEq

/-- The opening root tag the writer auto-emits on its first call. -/
def plistOpenToken : XmlToken := .StartElement "plist" [("version", "1.0")]

/-- Source `EventWriter::write_element_and_value`: start tag, character data, end
tag. -/
def elementAndValue (name value : String) : List XmlToken :=
  [.StartElement name [], .Characters value, .EndElement name]

/-- The three tokens a dictionary key element is written as. -/
def keyTokens (v : String) : List XmlToken := elementAndValue "key" v

/-- Source `EventWriter::maybe_end_plist`: when exactly one frame is left the tree
is complete — emit the closing root tag (before the frame check, as the
source does) and pop, demanding the popped frame be `Root`. -/
def maybe_end_plist (st : WriterState) : WriterState × Option Error :=
  if st.stack.length = 1 then
    match st.stack with
    | [Element.Root] => (⟨[], st.out ++ [.EndElement "plist"]⟩, none)
    | _ => (⟨st.stack.tail, st.out ++ [.EndElement "plist"]⟩, some .InvalidData)
  else (st, none)

/-- The event-kind dispatch of `EventWriter::write` (the second `match` in
`writer.rs`), followed by `maybe_end_plist` on the arms that do not return
early.  `EndArray` emits the closing array tag before the popped frame is
checked, exactly as the source does.  The source `match` has no arms for the
document events `StartPlist`/`EndPlist` (a well-formed caller never passes
them); they are modelled as a structural error and no theorem below rests on
that choice. -/
def dispatchEvent (C : Codecs ρ δ) (st : WriterState) (event : PlistEvent ρ δ) :
    WriterState × Option Error :=
  match event with
  | .StartArray _ =>
    maybe_end_plist
      ⟨Element.Array :: st.stack, st.out ++ [.StartElement "array" []]⟩
  | .EndArray =>
    match st.stack with
    | Element.Array :: rest =>
      maybe_end_plist ⟨rest, st.out ++ [.EndElement "array"]⟩
    | _ :: rest => (⟨rest, st.out ++ [.EndElement "array"]⟩, some .InvalidData)
    | [] => (⟨[], st.out ++ [.EndElement "array"]⟩, some .InvalidData)
  | .StartDictionary _ =>
    maybe_end_plist
      ⟨Element.Dictionary .ExpectKey :: st.stack,
        st.out ++ [.StartElement "dict" []]⟩
  | .EndDictionary => (st, some .InvalidData)
  | .BooleanValue true =>
    maybe_end_plist
      ⟨st.stack, st.out ++ [.StartElement "true" [], .EndElement "true"]⟩
  | .BooleanValue false =>
    maybe_end_plist
      ⟨st.stack, st.out ++ [.StartElement "false" [], .EndElement "false"]⟩
  | .DataValue d =>
    maybe_end_plist ⟨st.stack, st.out ++ elementAndValue "data" (C.dataEnc d)⟩
  | .DateValue d =>
    maybe_end_plist ⟨st.stack, st.out ++ elementAndValue "date" (C.dateEnc d)⟩
  | .IntegerValue i =>
    maybe_end_plist
      ⟨st.stack, st.out ++ elementAndValue "integer" (C.intEnc i)⟩
  | .RealValue r =>
    maybe_end_plist ⟨st.stack, st.out ++ elementAndValue "real" (C.realEnc r)⟩
  | .StringValue s =>
    maybe_end_plist ⟨st.stack, st.out ++ elementAndValue "string" s⟩
  | .StartPlist => (st, some .InvalidData)
  | .EndPlist => (st, some .InvalidData)

/-- Source `EventWriter::write` (`writer.rs`): the pre-dispatch `match` on the
popped top frame.  In the `ExpectKey` state only a key string or
`EndDictionary` is legal (and both return early); an `ExpectValue` frame is
flipped back to `ExpectKey` before dispatch; an empty stack first emits the
opening root tag and pushes `Root`; everything else falls through to
`dispatchEvent`. -/
def write (C : Codecs ρ δ) (st : WriterState) (event : PlistEvent ρ δ) :
    WriterState × Option Error :=
  match st.stack with
  | Element.Dictionary .ExpectKey :: rest =>
    match event with
    | .StringValue v =>
      (⟨Element.Dictionary .ExpectValue :: rest, st.out ++ keyTokens v⟩, none)
    | .EndDictionary => maybe_end_plist ⟨rest, st.out ++ [.EndElement "dict"]⟩
    | _ => (⟨rest, st.out⟩, some .InvalidData)
  | Element.Dictionary .ExpectValue :: rest =>
    dispatchEvent C ⟨Element.Dictionary .ExpectKey :: rest, st.out⟩ event
  | _ :: _ => dispatchEvent C st event
  | [] => dispatchEvent C ⟨[Element.Root], st.out ++ [plistOpenToken]⟩ event

/-- Feed a whole event sequence to the writer, stopping at the first
error. -/
def writeAll (C : Codecs ρ δ) (st : WriterState) :
    List (PlistEvent ρ δ) → WriterState × Option Error
  | [] => (st, none)
  | e :: es =>
    match write C st e with
    | (st2, none) => writeAll C st2 es
    | (st2, some err) => (st2, some err)

/-- Events legal when the writer's top frame is `Dictionary(ExpectKey)`: a
key string or the dictionary's end. -/
def expectKeyLegal : PlistEvent ρ δ → Bool
  | .StringValue _ => true
  | .EndDictionary => true
  | _ => false

/-- The scalar (single-value, non-container, non-document) event kinds. -/
def isScalarEvent : PlistEvent ρ δ → Bool
  | .BooleanValue _ => true
  | .IntegerValue _ => true
  | .RealValue _ => true
  | .StringValue _ => true
  | .DataValue _ => true
  | .DateValue _ => true
  | _ => false

/-- The tokens `dispatchEvent` emits for a scalar event (junk `[]` on
non-scalars, which no theorem uses). -/
def scalarTokens (C : Codecs ρ δ) : PlistEvent ρ δ → List XmlToken
  | .BooleanValue true => [.StartElement "true" [], .EndElement "true"]
  | .BooleanValue false => [.StartElement "false" [], .EndElement "false"]
  | .IntegerValue i => elementAndValue "integer" (C.intEnc i)
  | .RealValue r => elementAndValue "real" (C.realEnc r)
  | .StringValue s => elementAndValue "string" s
  | .DataValue d => elementAndValue "data" (C.dataEnc d)
  | .DateValue d => elementAndValue "date" (C.dateEnc d)
  | _ => []

/-- The serde bridge's sink (`ser.rs`): an `EventWriter` trait object is
modelled by the sequence of events it has accepted; `Serializer::emit`
forwards one event to it.  Claims about the bridge concern this emitted
sequence. -/
def emitEvent (s : List (PlistEvent ρ δ)) (e : PlistEvent ρ δ) :
    Except Error (List (PlistEvent ρ δ)) :=
  .ok (s ++ [e])

/-- Source `Serializer::serialize_unit`: the content-free marker, an empty
string. -/
def serialize_unit (s : List (PlistEvent ρ δ)) :
    Except Error (List (PlistEvent ρ δ)) :=
  emitEvent s (.StringValue "")

/-- Source `Serializer::single_key_dict`: emit a one-entry dictionary
`{key: value}` around the payload serializer `valueFn`. -/
def single_key_dict (key : String)
    (valueFn : List (PlistEvent ρ δ) → Except Error (List (PlistEvent ρ δ)))
    (s : List (PlistEvent ρ δ)) : Except Error (List (PlistEvent ρ δ)) := do
  let s1 ← emitEvent s (.StartDictionary (some 1))
  let s2 ← emitEvent s1 (.StringValue key)
  let s3 ← valueFn s2
  emitEvent s3 .EndDictionary

/-- Source `Serializer::serialize_none`. -/
def serialize_none (s : List (PlistEvent ρ δ)) :
    Except Error (List (PlistEvent ρ δ)) :=
  single_key_dict "None" serialize_unit s

/-- Source `Serializer::serialize_some`: the present payload's own serialization is
the abstract `valueFn`. -/
def serialize_some
    (valueFn : List (PlistEvent ρ δ) → Except Error (List (PlistEvent ρ δ)))
    (s : List (PlistEvent ρ δ)) : Except Error (List (PlistEvent ρ δ)) :=
  single_key_dict "Some" valueFn s

/-- The `SeqVisitor` loop of `serialize_seq`: each element's serialization
in iteration order, short-circuiting on the first error. -/
def runSeqVisits :
    List (List (PlistEvent ρ δ) → Except Error (List (PlistEvent ρ δ))) →
    List (PlistEvent ρ δ) → Except Error (List (PlistEvent ρ δ))
  | [], s => .ok s
  | f :: fs, s => do
    let s2 ← f s
    runSeqVisits fs s2

/-- Source `Serializer::serialize_seq`: `len` is the visitor's statically known
length (`visitor.len()`, the lossless `usize as u64` cast dropped),
forwarded as the array's hint; the elements are visited in iteration
order. -/
def serialize_seq (len : Option Nat)
    (fs : List (List (PlistEvent ρ δ) → Except Error (List (PlistEvent ρ δ))))
    (s : List (PlistEvent ρ δ)) : Except Error (List (PlistEvent ρ δ)) := do
  let s1 ← emitEvent s (.StartArray len)
  let s2 ← runSeqVisits fs s1
  emitEvent s2 .EndArray

/-- Source `Serializer::serialize_map_elt`: the key's serialization immediately
followed by the value's. -/
def serialize_map_elt
    (keyFn valueFn :
      List (PlistEvent ρ δ) → Except Error (List (PlistEvent ρ δ)))
    (s : List (PlistEvent ρ δ)) : Except Error (List (PlistEvent ρ δ)) := do
  let s1 ← keyFn s
  valueFn s1

/-- The `MapVisitor` loop of `serialize_map`: each entry is one
`serialize_map_elt` call, in iteration order. -/
def runMapVisits :
    List ((List (PlistEvent ρ δ) → Except Error (List (PlistEvent ρ δ))) ×
      (List (PlistEvent ρ δ) → Except Error (List (PlistEvent ρ δ)))) →
    List (PlistEvent ρ δ) → Except Error (List (PlistEvent ρ δ))
  | [], s => .ok s
  | pr :: prs, s => do
    let s2 ← serialize_map_elt pr.1 pr.2 s
    runMapVisits prs s2

/-- Source `Serializer::serialize_map`: known length forwarded as the dictionary's
hint, entries in iteration order, never reordered. -/
def serialize_map (len : Option Nat)
    (prs : List ((List (PlistEvent ρ δ) → Except Error (List (PlistEvent ρ δ))) ×
      (List (PlistEvent ρ δ) → Except Error (List (PlistEvent ρ δ)))))
    (s : List (PlistEvent ρ δ)) : Except Error (List (PlistEvent ρ δ)) := do
  let s1 ← emitEvent s (.StartDictionary len)
  let s2 ← runMapVisits prs s1
  emitEvent s2 .EndDictionary

/-- The Rust `u64 → i64` `as`-cast: two's-complement reinterpretation of a
value below `2 ^ 64`. -/
def i64_of_u64 (v : Nat) : Int :=
  if v < 2 ^ 63 then (v : Int) else (v : Int) - 2 ^ 64

/-- Source `Serializer::serialize_u64`: `self.emit(PlistEvent::IntegerValue(v as
i64))`. -/
def serialize_u64 (v : Nat) (s : List (PlistEvent ρ δ)) :
    Except Error (List (PlistEvent ρ δ)) :=
  emitEvent s (.IntegerValue (i64_of_u64 v))

/-- Source `Serializer::serialize_i64`. -/
def serialize_i64 (v : Int) (s : List (PlistEvent ρ δ)) :
    Except Error (List (PlistEvent ρ δ)) :=
  emitEvent s (.IntegerValue v)

/-- Plist value trees.  Their serializations `toEvents` are exactly the
well-formed writer input sequences of the spec: one complete top-level
value, properly nested Start/End pairs, strict key/value alternation inside
dictionaries, and no document events (the writer supplies the root wrapper
itself). -/
inductive PValue (ρ δ : Type) where
  | bool (b : Bool)
  | int (i : Int)
  | real (r : ρ)
  | str (s : String)
  | data (d : List Nat)
  | date (d : δ)
  | arr (hint : Option Nat) (items : List (PValue ρ δ))
  | dict (hint : Option Nat) (pairs : List (String × PValue ρ δ))

mutual

/-- The event sequence of a value tree. -/
def toEvents : PValue ρ δ → List (PlistEvent ρ δ)
  | .bool b => [.BooleanValue b]
  | .int i => [.IntegerValue i]
  | .real r => [.RealValue r]
  | .str s => [.StringValue s]
  | .data d => [.DataValue d]
  | .date d => [.DateValue d]
  | .arr h items => .StartArray h :: toEventsList items ++ [.EndArray]
  | .dict h prs => .StartDictionary h :: toEventsPairs prs ++ [.EndDictionary]

/-- Events of the items of an array, in order. -/
def toEventsList : List (PValue ρ δ) → List (PlistEvent ρ δ)
  | [] => []
  | v :: vs => toEvents v ++ toEventsList vs

/-- Events of the entries of a dictionary: each key string immediately
followed by its value's events. -/
def toEventsPairs : List (String × PValue ρ δ) → List (PlistEvent ρ δ)
  | [] => []
  | (k, v) :: prs => .StringValue k :: toEvents v ++ toEventsPairs prs

end

mutual

/-- The XML tokens the writer emits for a value tree (without the root
wrapper). -/
def vTok (C : Codecs ρ δ) : PValue ρ δ → List XmlToken
  | .bool true => [.StartElement "true" [], .EndElement "true"]
  | .bool false => [.StartElement "false" [], .EndElement "false"]
  | .int i => elementAndValue "integer" (C.intEnc i)
  | .real r => elementAndValue "real" (C.realEnc r)
  | .str s => elementAndValue "string" s
  | .data d => elementAndValue "data" (C.dataEnc d)
  | .date d => elementAndValue "date" (C.dateEnc d)
  | .arr _ items =>
    .StartElement "array" [] :: vTokList C items ++ [.EndElement "array"]
  | .dict _ prs =>
    .StartElement "dict" [] :: vTokPairs C prs ++ [.EndElement "dict"]

/-- Tokens of the items of an array. -/
def vTokList (C : Codecs ρ δ) : List (PValue ρ δ) → List XmlToken
  | [] => []
  | v :: vs => vTok C v ++ vTokList C vs

/-- Tokens of the entries of a dictionary. -/
def vTokPairs (C : Codecs ρ δ) : List (String × PValue ρ δ) → List XmlToken
  | [] => []
  | (k, v) :: prs => keyTokens k ++ vTok C v ++ vTokPairs C prs

end

mutual

/-- Erase all container length hints (the markup carries no counts, so the
reader always reports `none`). -/
def eraseHints : PValue ρ δ → PValue ρ δ
  | .arr _ items => .arr none (eraseHintsList items)
  | .dict _ prs => .dict none (eraseHintsPairs prs)
  | v => v

/-- Hint erasure on array items. -/
def eraseHintsList : List (PValue ρ δ) → List (PValue ρ δ)
  | [] => []
  | v :: vs => eraseHints v :: eraseHintsList vs

/-- Hint erasure on dictionary entries. -/
def eraseHintsPairs : List (String × PValue ρ δ) → List (String × PValue ρ δ)
  | [] => []
  | (k, v) :: prs => (k, eraseHints v) :: eraseHintsPairs prs

end

mutual

/-- The external codecs decode what they encoded, at every payload occurring
in the tree — the round-trip contract of the external base64/RFC3339/decimal
codecs, at exactly the values used. -/
def roundtripsB (C : Codecs ρ δ) [DecidableEq ρ] [DecidableEq δ] :
    PValue ρ δ → Bool
  | .bool _ => true
  | .int i => decide (C.intDec (C.intEnc i) = some i)
  | .real r => decide (C.realDec (C.realEnc r) = some r)
  | .str _ => true
  | .data d => decide (C.dataDec (C.dataEnc d) = some d)
  | .date d => decide (C.dateDec (C.dateEnc d) = some d)
  | .arr _ items => roundtripsListB C items
  | .dict _ prs => roundtripsPairsB C prs

/-- Codec round-trip contract over array items. -/
def roundtripsListB (C : Codecs ρ δ) [DecidableEq ρ] [DecidableEq δ] :
    List (PValue ρ δ) → Bool
  | [] => true
  | v :: vs => roundtripsB C v && roundtripsListB C vs

/-- Codec round-trip contract over dictionary entries. -/
def roundtripsPairsB (C : Codecs ρ δ) [DecidableEq ρ] [DecidableEq δ] :
    List (String × PValue ρ δ) → Bool
  | [] => true
  | (_, v) :: prs => roundtripsB C v && roundtripsPairsB C prs

end

/-- A unary digit run, used by the concrete witness codecs below. -/
def unaryNat (n : Nat) : List Char := List.replicate n 'a'

/-- Witness integer encoder (any injective encoding qualifies as an
instantiation of the external decimal codec parameter). -/
def unaryEncInt (i : Int) : String :=
  match i with
  | .ofNat n => String.mk (unaryNat n)
  | .negSucc n => String.mk ('-' :: unaryNat (n + 1))

/-- Witness integer decoder, inverse of `unaryEncInt` on its range. -/
def unaryDecInt (s : String) : Option Int :=
  match s.data with
  | '-' :: cs =>
    if cs.all (fun c => c = 'a') then
      match cs.length with
      | 0 => none
      | k + 1 => some (Int.negSucc k)
    else none
  | cs => if cs.all (fun c => c = 'a') then some (Int.ofNat cs.length) else none

/-- Witness byte-buffer encoder: each byte as a unary run closed by a
separator. -/
def unaryEncList (l : List Nat) : String :=
  String.mk (l.flatMap (fun n => unaryNat n ++ ['s']))

/-- Helper of `unaryDecList`: `k` is the run counted so far. -/
def unaryDecListAux : List Char → Nat → Option (List Nat)
  | [], 0 => some []
  | [], _ + 1 => none
  | 'a' :: cs, k => unaryDecListAux cs (k + 1)
  | 's' :: cs, k => (unaryDecListAux cs 0).map (fun l => k :: l)
  | _ :: _, _ => none

/-- Witness byte-buffer decoder, inverse of `unaryEncList` on its range. -/
def unaryDecList (s : String) : Option (List Nat) :=
  unaryDecListAux s.data 0

/-- Witness encoder for the abstract real/date payload type `Bool`. -/
def boolEnc (b : Bool) : String := if b then "T" else "F"

/-- Witness decoder for the abstract real/date payload type `Bool`. -/
def boolDec (s : String) : Option Bool :=
  if s = "T" then some true else if s = "F" then some false else none

/-- A concrete, fully computable codec instantiation used by the witness
theorems (payload types `ρ = δ = Bool`). -/
def testCodecs : Codecs Bool Bool :=
  ⟨unaryEncInt, unaryDecInt, boolEnc, boolDec, boolEnc, boolDec,
    unaryEncList, unaryDecList⟩

/-- A sample tree exercising every primitive kind, with length hints
present. -/
def sampleValue : PValue Bool Bool :=
  .dict (some 3)
    [("i", .int (-2)),
     ("a", .arr (some 4) [.bool true, .real true, .data [2, 0], .date false]),
     ("s", .str "hi")]

/-- The element names the reader's start-tag dispatch recognizes; any other
start tag is `InvalidData`. -/
def knownTags : List String :=
  ["plist", "array", "dict", "key", "true", "false", "data", "date",
   "integer", "real", "string"]

/-- Writer stack contexts in which a complete value may start: the very
first call (empty stack), inside an open array, or inside a dictionary
right after its key (value phase).  The non-empty `rest` below the top
frame always holds in a real run (the bottom frame is `Root`). -/
inductive ValidCtx : List Element → Prop
  | empty : ValidCtx []
  | arr (rest : List Element) (h : rest ≠ []) : ValidCtx (Element.Array :: rest)
  | dict (rest : List Element) (h : rest ≠ []) :
      ValidCtx (Element.Dictionary .ExpectValue :: rest)

/-- The stack the event-kind dispatch of a value's first event sees, after
`write`'s pre-dispatch step: an empty stack has `Root` pushed, a
dictionary-value frame is flipped back to expect-key, anything else is
untouched. -/
def preCtx : List Element → List Element
  | [] => [Element.Root]
  | Element.Dictionary .ExpectValue :: rest =>
    Element.Dictionary .ExpectKey :: rest
  | ctx => ctx

/-- The writer stack after a complete value written in context `ctx`: the
top-level value closes the document (empty stack), any nested one restores
the dispatch-time context. -/
def postCtx (ctx : List Element) : List Element :=
  if ctx = [] then [] else preCtx ctx

/-- The tokens a complete value contributes in context `ctx`: at top level
the writer wraps them in the root element. -/
def wrapCtx (ctx : List Element) (ts : List XmlToken) : List XmlToken :=
  if ctx = [] then plistOpenToken :: (ts ++ [.EndElement "plist"]) else ts

/-- CLAIM C3 — if the writer's top frame is `Dictionary(ExpectKey)`: a
`String` event writes a key element and flips the frame to `ExpectValue`;
`EndDictionary` closes the dictionary tag (and checks for document
completion); every other event kind returns `InvalidData` — in particular a
value event with no preceding key inside an open dictionary fails. -/
theorem claim_C3 (C : Codecs ρ δ) (st : WriterState) (rest : List Element)
    (h : st.stack = Element.Dictionary .ExpectKey :: rest) :
    (∀ s, write C st (.StringValue s) =
      (⟨Element.Dictionary .ExpectValue :: rest, st.out ++ keyTokens s⟩, none))
    ∧ write C st .EndDictionary =
        maybe_end_plist ⟨rest, st.out ++ [.EndElement "dict"]⟩
    ∧ ∀ e, expectKeyLegal e = false →
        write C st e = (⟨rest, st.out⟩, some .InvalidData) := by
  obtain ⟨stk, out⟩ := st
  simp only at h
  subst h
  refine ⟨fun s => rfl, rfl, fun e he => ?_⟩
  cases e <;> simp_all [write, expectKeyLegal]

/-- Witness for C3 at a concrete state: a boolean value with no preceding
key inside an open dictionary is rejected with `InvalidData`. -/
theorem claim_C3_witness :
    (⟨[Element.Dictionary .ExpectKey, Element.Root], []⟩ : WriterState).stack =
      Element.Dictionary .ExpectKey :: [Element.Root]
    ∧ expectKeyLegal (.BooleanValue true : PlistEvent Bool Bool) = false
    ∧ write testCodecs ⟨[Element.Dictionary .ExpectKey, Element.Root], []⟩
        (.BooleanValue true) = (⟨[Element.Root], []⟩, some .InvalidData) :=
  ⟨rfl, rfl,
    (claim_C3 testCodecs ⟨[Element.Dictionary .ExpectKey, Element.Root], []⟩
      [Element.Root] rfl).2.2 (.BooleanValue true) rfl⟩

/-- CLAIM C4 — a `write` call on an empty stack first emits the opening
root tag and pushes `Root` before dispatching; once the stack is back to
exactly `[Root]`, the completion check emits the closing root tag and pops
it; hence one bare scalar becomes a plist wrapper holding exactly that one
element. -/
theorem claim_C4 (C : Codecs ρ δ) :
    (∀ st e, st.stack = [] →
      write C st e =
        dispatchEvent C ⟨[Element.Root], st.out ++ [plistOpenToken]⟩ e)
    ∧ (∀ out, maybe_end_plist ⟨[Element.Root], out⟩ =
        (⟨[], out ++ [.EndElement "plist"]⟩, none))
    ∧ ∀ e : PlistEvent ρ δ, isScalarEvent e = true →
        write C ⟨[], []⟩ e =
          (⟨[], plistOpenToken :: (scalarTokens C e ++ [.EndElement "plist"])⟩,
            none) := by
  refine ⟨fun st e hst => ?_, fun out => rfl, fun e he => ?_⟩
  · obtain ⟨stk, out⟩ := st
    simp only at hst
    subst hst
    rfl
  · cases e <;> simp_all [write, dispatchEvent, maybe_end_plist, isScalarEvent,
      scalarTokens, elementAndValue]
    rename_i b
    cases b <;> rfl

/-- Witness for C4: a bare integer scalar written on a fresh writer. -/
theorem claim_C4_witness :
    (⟨[], []⟩ : WriterState).stack = []
    ∧ isScalarEvent (.IntegerValue 7 : PlistEvent Bool Bool) = true
    ∧ write testCodecs ⟨[], []⟩ (.IntegerValue 7) =
        (⟨[], plistOpenToken ::
          (scalarTokens testCodecs (.IntegerValue 7) ++ [.EndElement "plist"])⟩,
          none) :=
  ⟨rfl, rfl, (claim_C4 testCodecs).2.2 (.IntegerValue 7) rfl⟩

/-- CLAIM C5 — mismatched or unmatched closers fail on both sides: the
reader returns `InvalidData` when a closing tag meets an empty name stack or
a different popped name; the writer returns `InvalidData` when `EndArray`
does not pop an `Array` frame or `EndDictionary` arrives outside the
`Dictionary(ExpectKey)` state. -/
theorem claim_C5 (C : Codecs ρ δ) :
    (∀ name ts, parserNext C (.EndElement name :: ts) [] =
      some (.error .InvalidData, ts, []))
    ∧ (∀ name ts top rest, top ≠ name →
        parserNext C (.EndElement name :: ts) (top :: rest) =
          some (.error .InvalidData, ts, rest))
    ∧ (∀ st, st.stack.head? ≠ some Element.Array →
        (write C st .EndArray).2 = some .InvalidData)
    ∧ ∀ st, st.stack.head? ≠ some (Element.Dictionary .ExpectKey) →
        (write C st .EndDictionary).2 = some .InvalidData := by
  refine ⟨fun name ts => rfl, fun name ts top rest h => ?_, fun st h => ?_,
    fun st h => ?_⟩
  · simp [parserNext, h]
  · obtain ⟨stk, out⟩ := st
    match stk with
    | [] => rfl
    | Element.Array :: r => simp at h
    | Element.Root :: r => rfl
    | Element.Dictionary .ExpectKey :: r => rfl
    | Element.Dictionary .ExpectValue :: r => rfl
  · obtain ⟨stk, out⟩ := st
    match stk with
    | [] => rfl
    | Element.Array :: r => rfl
    | Element.Root :: r => rfl
    | Element.Dictionary .ExpectKey :: r => simp at h
    | Element.Dictionary .ExpectValue :: r => rfl

/-- Witness for C5 at concrete inputs: an array closed by a dictionary end
tag on the reader side, and an `EndArray`/`EndDictionary` against a `Root`
top frame on the writer side. -/
theorem claim_C5_witness :
    ("array" : String) ≠ "dict"
    ∧ parserNext testCodecs [.EndElement "dict"] ["array"] =
        some (.error .InvalidData, [], [])
    ∧ (⟨[Element.Root], []⟩ : WriterState).stack.head? ≠ some Element.Array
    ∧ (write testCodecs ⟨[Element.Root], []⟩ .EndArray).2 = some .InvalidData
    ∧ (⟨[Element.Root], []⟩ : WriterState).stack.head? ≠
        some (Element.Dictionary .ExpectKey)
    ∧ (write testCodecs ⟨[Element.Root], []⟩ .EndDictionary).2 =
        some .InvalidData :=
  ⟨by decide,
    (claim_C5 testCodecs).2.1 "dict" [] "array" [] (by decide),
    by decide,
    (claim_C5 testCodecs).2.2.1 ⟨[Element.Root], []⟩ (by decide),
    by decide,
    (claim_C5 testCodecs).2.2.2 ⟨[Element.Root], []⟩ (by decide)⟩

/-- CLAIM C6 — when the tokenizer reports end of document (the token list
is exhausted) with a non-empty element stack the reader yields
`UnexpectedEof`; with an empty stack the sequence simply ends. -/
theorem claim_C6 (C : Codecs ρ δ) (stack : List String) :
    (stack ≠ [] →
      parserNext C [] stack = some (.error .UnexpectedEof, [], stack))
    ∧ (stack = [] → parserNext C [] stack = none) := by
  constructor <;> intro h <;> simp [parserNext, h]

/-- Witness for C6: truncated input inside an open dictionary, and clean
end at the top level. -/
theorem claim_C6_witness :
    (["dict", "plist"] : List String) ≠ []
    ∧ parserNext testCodecs [] ["dict", "plist"] =
        some (.error .UnexpectedEof, [], ["dict", "plist"])
    ∧ ([] : List String) = []
    ∧ parserNext testCodecs [] ([] : List String) = none :=
  ⟨by decide, (claim_C6 testCodecs ["dict", "plist"]).1 (by decide),
    rfl, (claim_C6 testCodecs []).2 rfl⟩

/-- CLAIM C7 — start-tag handling of the reader: key/string tags read the
immediately following text and emit `String(content)`, a missing text token
(or end of input) is `InvalidData`; undecodable data/integer/real content is
`InvalidData`; a failing date parse propagates its own error; any
unrecognized tag is `InvalidData`. -/
theorem claim_C7 (C : Codecs ρ δ) :
    (∀ attrs s ts stack,
      parserNext C (.StartElement "key" attrs :: .Characters s :: ts) stack =
        some (.ok (.StringValue s), ts, "key" :: stack)
      ∧ parserNext C (.StartElement "string" attrs :: .Characters s :: ts)
          stack = some (.ok (.StringValue s), ts, "string" :: stack))
    ∧ (∀ attrs t ts stack, (∀ s, t ≠ .Characters s) →
      parserNext C (.StartElement "key" attrs :: t :: ts) stack =
        some (.error .InvalidData, ts, "key" :: stack)
      ∧ parserNext C (.StartElement "string" attrs :: t :: ts) stack =
        some (.error .InvalidData, ts, "string" :: stack))
    ∧ (∀ attrs stack,
      parserNext C [.StartElement "key" attrs] stack =
        some (.error .InvalidData, [], "key" :: stack))
    ∧ (∀ attrs s ts stack, C.dataDec s = none →
      parserNext C (.StartElement "data" attrs :: .Characters s :: ts) stack =
        some (.error .InvalidData, ts, "data" :: stack))
    ∧ (∀ attrs s ts stack, C.intDec s = none →
      parserNext C (.StartElement "integer" attrs :: .Characters s :: ts)
        stack = some (.error .InvalidData, ts, "integer" :: stack))
    ∧ (∀ attrs s ts stack, C.realDec s = none →
      parserNext C (.StartElement "real" attrs :: .Characters s :: ts) stack =
        some (.error .InvalidData, ts, "real" :: stack))
    ∧ (∀ attrs s ts stack, C.dateDec s = none →
      parserNext C (.StartElement "date" attrs :: .Characters s :: ts) stack =
        some (.error .DateParse, ts, "date" :: stack))
    ∧ ∀ attrs name ts stack, name ∉ knownTags →
      parserNext C (.StartElement name attrs :: ts) stack =
        some (.error .InvalidData, ts, name :: stack) := by
  refine ⟨fun attrs s ts stack => ⟨rfl, rfl⟩,
    fun attrs t ts stack h => ?_,
    fun attrs stack => rfl,
    fun attrs s ts stack h => ?_,
    fun attrs s ts stack h => ?_,
    fun attrs s ts stack h => ?_,
    fun attrs s ts stack h => ?_,
    fun attrs name ts stack h => ?_⟩
  · cases t <;> first
      | exact absurd rfl (h _)
      | exact ⟨rfl, rfl⟩
  · simp [parserNext, readContent, h]
  · simp [parserNext, readContent, h]
  · simp [parserNext, readContent, h]
  · simp [parserNext, readContent, h]
  · simp only [knownTags, List.mem_cons, List.mem_singleton, not_or] at h
    obtain ⟨h1, h2, h3, h4, h5, h6, h7, h8, h9, h10, h11, -⟩ := h
    simp [parserNext, h1, h2, h3, h4, h5, h6, h7, h8, h9, h10, h11]

/-- Witness for C7 at concrete inputs: missing text after a key tag,
undecodable integer and date content, and an unrecognized tag. -/
theorem claim_C7_witness :
    (∀ s, XmlToken.Skipped ≠ XmlToken.Characters s)
    ∧ parserNext testCodecs [.StartElement "key" [], .Skipped] [] =
        some (.error .InvalidData, [], ["key"])
    ∧ testCodecs.intDec "b" = none
    ∧ parserNext testCodecs [.StartElement "integer" [], .Characters "b"] [] =
        some (.error .InvalidData, [], ["integer"])
    ∧ testCodecs.dateDec "q" = none
    ∧ parserNext testCodecs [.StartElement "date" [], .Characters "q"] [] =
        some (.error .DateParse, [], ["date"])
    ∧ ("frob" : String) ∉ knownTags
    ∧ parserNext testCodecs [.StartElement "frob" []] ["plist"] =
        some (.error .InvalidData, [], ["frob", "plist"]) :=
  ⟨fun _ h => XmlToken.noConfusion h,
    ((claim_C7 testCodecs).2.1 [] .Skipped [] []
      (fun _ h => XmlToken.noConfusion h)).1,
    by decide,
    (claim_C7 testCodecs).2.2.2.2.1 [] "b" [] [] (by decide),
    by decide,
    (claim_C7 testCodecs).2.2.2.2.2.2.1 [] "q" [] [] (by decide),
    by decide,
    (claim_C7 testCodecs).2.2.2.2.2.2.2 [] "frob" [] ["plist"] (by decide)⟩

/-- CLAIM C2, counterexample — the claim says an illegal event produces no
output before the `InvalidData` error, in particular an `EndArray` whose top
frame is not `Array`.  On a fresh writer, `EndArray` returns `InvalidData`
but has already handed the opening root tag and a closing array tag to the
emitter. -/
theorem claim_C2_counterexample :
    (write testCodecs ⟨[], []⟩ .EndArray).2 = some .InvalidData
    ∧ (write testCodecs ⟨[], []⟩ .EndArray).1.out =
        [plistOpenToken, .EndElement "array"]
    ∧ (write testCodecs ⟨[], []⟩ .EndArray).1.out ≠ [] := by
  refine ⟨rfl, rfl, ?_⟩
  decide

/-- CLAIM C2, amended — every illegal event is rejected with `InvalidData`,
and no markup is emitted before the error except: an illegal `EndArray`
emits the closing array tag first, and an illegal first event also emits
the auto-wrap opening root tag. -/
theorem claim_C2_amended (C : Codecs ρ δ) (st : WriterState) :
    (∀ e rest, st.stack = Element.Dictionary .ExpectKey :: rest →
      expectKeyLegal e = false →
      write C st e = (⟨rest, st.out⟩, some .InvalidData))
    ∧ (st.stack.head? = some Element.Root ∨
        st.stack.head? = some (Element.Dictionary .ExpectValue) ∨
        st.stack.head? = some Element.Array →
      (write C st .EndDictionary).2 = some .InvalidData
      ∧ (write C st .EndDictionary).1.out = st.out)
    ∧ (st.stack = [] →
      write C st .EndDictionary =
        (⟨[Element.Root], st.out ++ [plistOpenToken]⟩, some .InvalidData))
    ∧ (st.stack.head? = some Element.Root ∨
        st.stack.head? = some (Element.Dictionary .ExpectValue) →
      (write C st .EndArray).2 = some .InvalidData
      ∧ (write C st .EndArray).1.out = st.out ++ [.EndElement "array"])
    ∧ (st.stack = [] →
      write C st .EndArray =
        (⟨[], st.out ++ [plistOpenToken, .EndElement "array"]⟩,
          some .InvalidData)) := by
  obtain ⟨stk, out⟩ := st
  refine ⟨fun e rest hst he => ?_, fun h => ?_, fun h => ?_, fun h => ?_,
    fun h => ?_⟩
  · simp only at hst
    subst hst
    cases e <;> simp_all [write, expectKeyLegal]
  · match stk, h with
    | Element.Root :: r, _ => exact ⟨rfl, rfl⟩
    | Element.Dictionary .ExpectValue :: r, _ => exact ⟨rfl, rfl⟩
    | Element.Array :: r, _ => exact ⟨rfl, rfl⟩
  · simp only at h
    subst h
    rfl
  · match stk, h with
    | Element.Root :: r, _ => exact ⟨rfl, by simp [write, dispatchEvent]⟩
    | Element.Dictionary .ExpectValue :: r, _ =>
      exact ⟨rfl, by simp [write, dispatchEvent]⟩
  · simp only at h
    subst h
    simp [write, dispatchEvent, plistOpenToken]

/-- Witness for the amended C2 at concrete states: an `EndArray` against a
dictionary-value frame emits only the array closing tag before the error,
an `EndArray` as the very first event emits the root opening tag and the
array closing tag, and an `EndDictionary` against an open array frame is
rejected with no output at all. -/
theorem claim_C2_amended_witness :
    ((⟨[Element.Dictionary .ExpectValue, Element.Root], []⟩ :
        WriterState).stack.head? = some Element.Root ∨
      (⟨[Element.Dictionary .ExpectValue, Element.Root], []⟩ :
        WriterState).stack.head? = some (Element.Dictionary .ExpectValue))
    ∧ (write testCodecs ⟨[Element.Dictionary .ExpectValue, Element.Root], []⟩
        .EndArray).2 = some .InvalidData
    ∧ (write testCodecs ⟨[Element.Dictionary .ExpectValue, Element.Root], []⟩
        .EndArray).1.out = [] ++ [.EndElement "array"]
    ∧ (⟨[], []⟩ : WriterState).stack = []
    ∧ write testCodecs ⟨[], []⟩ .EndArray =
        (⟨[], [] ++ [plistOpenToken, .EndElement "array"]⟩,
          some .InvalidData)
    ∧ ((⟨[Element.Array, Element.Root], []⟩ :
          WriterState).stack.head? = some Element.Root ∨
        (⟨[Element.Array, Element.Root], []⟩ :
          WriterState).stack.head? = some (Element.Dictionary .ExpectValue) ∨
        (⟨[Element.Array, Element.Root], []⟩ :
          WriterState).stack.head? = some Element.Array)
    ∧ (write testCodecs ⟨[Element.Array, Element.Root], []⟩
        .EndDictionary).2 = some .InvalidData
    ∧ (write testCodecs ⟨[Element.Array, Element.Root], []⟩
        .EndDictionary).1.out = ([] : List XmlToken) := by
  refine ⟨Or.inr rfl, ?_, ?_, rfl, ?_, Or.inr (Or.inr rfl), ?_, ?_⟩
  · exact ((claim_C2_amended testCodecs
      ⟨[Element.Dictionary .ExpectValue, Element.Root], []⟩).2.2.2.1
      (Or.inr rfl)).1
  · exact ((claim_C2_amended testCodecs
      ⟨[Element.Dictionary .ExpectValue, Element.Root], []⟩).2.2.2.1
      (Or.inr rfl)).2
  · exact (claim_C2_amended testCodecs ⟨[], []⟩).2.2.2.2 rfl
  · exact ((claim_C2_amended testCodecs
      ⟨[Element.Array, Element.Root], []⟩).2.1 (Or.inr (Or.inr rfl))).1
  · exact ((claim_C2_amended testCodecs
      ⟨[Element.Array, Element.Root], []⟩).2.1 (Or.inr (Or.inr rfl))).2

/-- The sequence-visitor loop appends each element's payload in iteration
order when every element serializer is an appending function. -/
theorem runSeqVisits_append (fs : List (List (PlistEvent ρ δ) →
    Except Error (List (PlistEvent ρ δ)))) (ps : List (List (PlistEvent ρ δ)))
    (h : List.Forall₂ (fun f p => ∀ t, f t = .ok (t ++ p)) fs ps) :
    ∀ s, runSeqVisits fs s = .ok (s ++ ps.flatten) := by
  induction h with
  | nil => intro s; simp [runSeqVisits]
  | cons hf _ ih =>
    intro s
    simp only [runSeqVisits, hf s, List.flatten_cons, bind, Except.bind, ih]
    simp [List.append_assoc]

/-- The map-visitor loop appends each entry's key payload immediately
followed by its value payload, in iteration order. -/
theorem runMapVisits_append
    (prs : List ((List (PlistEvent ρ δ) → Except Error (List (PlistEvent ρ δ))) ×
      (List (PlistEvent ρ δ) → Except Error (List (PlistEvent ρ δ)))))
    (ps : List (List (PlistEvent ρ δ) × List (PlistEvent ρ δ)))
    (h : List.Forall₂ (fun pr p => (∀ t, pr.1 t = .ok (t ++ p.1)) ∧
      (∀ t, pr.2 t = .ok (t ++ p.2))) prs ps) :
    ∀ s, runMapVisits prs s =
      .ok (s ++ (ps.map (fun p => p.1 ++ p.2)).flatten) := by
  induction h with
  | nil => intro s; simp [runMapVisits]
  | cons hf _ ih =>
    intro s
    simp only [runMapVisits, serialize_map_elt, hf.1 s, bind, Except.bind,
      hf.2, List.map_cons, List.flatten_cons, ih]
    simp [List.append_assoc]

/-- CLAIM C8 — the bridge encodes optionals as single-entry dictionaries:
an absent optional emits StartDictionary, String "None", String "" (the
content-free marker), EndDictionary; a present optional wrapping a payload
emits StartDictionary, String "Some", the payload's own serialization,
EndDictionary. -/
theorem claim_C8 (s : List (PlistEvent ρ δ)) :
    serialize_none s =
      .ok (s ++ [.StartDictionary (some 1), .StringValue "None",
        .StringValue "", .EndDictionary])
    ∧ ∀ (valueFn : List (PlistEvent ρ δ) →
        Except Error (List (PlistEvent ρ δ)))
        (payload : List (PlistEvent ρ δ)),
        (∀ t, valueFn t = .ok (t ++ payload)) →
        serialize_some valueFn s =
          .ok (s ++ .StartDictionary (some 1) :: .StringValue "Some" ::
            (payload ++ [.EndDictionary])) := by
  constructor
  · simp [serialize_none, single_key_dict, serialize_unit, emitEvent, bind,
      Except.bind]
  · intro valueFn payload h
    simp [serialize_some, single_key_dict, emitEvent, bind, Except.bind, h]

/-- Witness for C8: the spec's own example, a present optional wrapping the
integer 5 becomes the single-entry dictionary with key Some and payload 5
(and the absent optional the None/empty-string dictionary). -/
theorem claim_C8_witness :
    serialize_none ([] : List (PlistEvent Bool Bool)) =
      .ok ([] ++ [.StartDictionary (some 1), .StringValue "None",
        .StringValue "", .EndDictionary])
    ∧ (∀ t : List (PlistEvent Bool Bool),
        serialize_i64 5 t = .ok (t ++ [.IntegerValue 5]))
    ∧ serialize_some (serialize_i64 5) ([] : List (PlistEvent Bool Bool)) =
        .ok ([] ++ .StartDictionary (some 1) :: .StringValue "Some" ::
          ([.IntegerValue 5] ++ [.EndDictionary])) :=
  ⟨(claim_C8 []).1, fun _ => rfl,
    (claim_C8 []).2 (serialize_i64 5) [.IntegerValue 5] (fun _ => rfl)⟩

/-- CLAIM C9 — the bridge forwards the statically known length as the
container's hint and serializes sequence elements, and map keys immediately
followed by their values, in iteration order, never reordering. -/
theorem claim_C9 (len : Option Nat) (s : List (PlistEvent ρ δ)) :
    (∀ (fs : List (List (PlistEvent ρ δ) →
        Except Error (List (PlistEvent ρ δ))))
        (ps : List (List (PlistEvent ρ δ))),
      List.Forall₂ (fun f p => ∀ t, f t = .ok (t ++ p)) fs ps →
      serialize_seq len fs s =
        .ok (s ++ .StartArray len :: (ps.flatten ++ [.EndArray])))
    ∧ ∀ (prs : List ((List (PlistEvent ρ δ) →
        Except Error (List (PlistEvent ρ δ))) ×
        (List (PlistEvent ρ δ) → Except Error (List (PlistEvent ρ δ)))))
        (ps : List (List (PlistEvent ρ δ) × List (PlistEvent ρ δ))),
      List.Forall₂ (fun pr p => (∀ t, pr.1 t = .ok (t ++ p.1)) ∧
        (∀ t, pr.2 t = .ok (t ++ p.2))) prs ps →
      serialize_map len prs s =
        .ok (s ++ .StartDictionary len ::
          ((ps.map (fun p => p.1 ++ p.2)).flatten ++ [.EndDictionary])) := by
  constructor
  · intro fs ps h
    simp [serialize_seq, emitEvent, bind, Except.bind,
      runSeqVisits_append fs ps h, List.append_assoc]
  · intro prs ps h
    simp [serialize_map, emitEvent, bind, Except.bind,
      runMapVisits_append prs ps h, List.append_assoc]

/-- Witness for C9: a two-element sequence with a known length hint and a
one-entry map, serialized in order. -/
theorem claim_C9_witness :
    List.Forall₂ (fun f p => ∀ t : List (PlistEvent Bool Bool),
        f t = .ok (t ++ p))
      [serialize_i64 1, serialize_i64 2]
      [[.IntegerValue 1], [.IntegerValue 2]]
    ∧ serialize_seq (some 2) [serialize_i64 1, serialize_i64 2]
        ([] : List (PlistEvent Bool Bool)) =
      .ok ([] ++ .StartArray (some 2) ::
        ([[PlistEvent.IntegerValue 1], [.IntegerValue 2]].flatten ++
          [.EndArray]))
    ∧ serialize_map (some 1) [(serialize_i64 7, serialize_i64 8)]
        ([] : List (PlistEvent Bool Bool)) =
      .ok ([] ++ .StartDictionary (some 1) ::
        (([([PlistEvent.IntegerValue 7], [PlistEvent.IntegerValue 8])].map
          (fun p => p.1 ++ p.2)).flatten ++ [.EndDictionary])) :=
  ⟨List.Forall₂.cons (fun _ => rfl)
      (List.Forall₂.cons (fun _ => rfl) List.Forall₂.nil),
    (claim_C9 (some 2) []).1 [serialize_i64 1, serialize_i64 2]
      [[.IntegerValue 1], [.IntegerValue 2]]
      (List.Forall₂.cons (fun _ => rfl)
        (List.Forall₂.cons (fun _ => rfl) List.Forall₂.nil)),
    (claim_C9 (some 1) []).2 [(serialize_i64 7, serialize_i64 8)]
      [([.IntegerValue 7], [.IntegerValue 8])]
      (List.Forall₂.cons ⟨fun _ => rfl, fun _ => rfl⟩ List.Forall₂.nil)⟩

/-- CLAIM C10 — `serialize_u64` reinterprets the unsigned value as a signed
64-bit integer by a two's-complement cast (congruent modulo `2 ^ 64` and in
the `i64` range), so inputs above `2 ^ 63 - 1` are emitted as negative
`Integer` events rather than an error. -/
theorem claim_C10 (s : List (PlistEvent ρ δ)) (v : Nat) (h : v < 2 ^ 64) :
    serialize_u64 v s = .ok (s ++ [.IntegerValue (i64_of_u64 v)])
    ∧ (i64_of_u64 v) % (2 ^ 64 : Int) = (v : Int)
    ∧ -(2 ^ 63 : Int) ≤ i64_of_u64 v ∧ i64_of_u64 v < 2 ^ 63
    ∧ (2 ^ 63 - 1 < v → i64_of_u64 v < 0) := by
  refine ⟨rfl, ?_, ?_, ?_, ?_⟩ <;>
    · simp only [i64_of_u64]
      split <;> omega

/-- Witness for C10 at `v = 2 ^ 63`: in range for `u64`, above
`2 ^ 63 - 1`, and emitted as a negative integer. -/
theorem claim_C10_witness :
    2 ^ 63 < 2 ^ 64
    ∧ (serialize_u64 (2 ^ 63) ([] : List (PlistEvent Bool Bool)) =
        .ok ([] ++ [.IntegerValue (i64_of_u64 (2 ^ 63))])
      ∧ (i64_of_u64 (2 ^ 63)) % (2 ^ 64 : Int) = ((2 ^ 63 : Nat) : Int)
      ∧ -(2 ^ 63 : Int) ≤ i64_of_u64 (2 ^ 63) ∧ i64_of_u64 (2 ^ 63) < 2 ^ 63
      ∧ (2 ^ 63 - 1 < 2 ^ 63 → i64_of_u64 (2 ^ 63) < 0)) :=
  ⟨by norm_num, claim_C10 [] (2 ^ 63) (by norm_num)⟩

/-- The completion check is a no-op whenever more (or fewer) than one frame
is open. -/
theorem maybe_end_plist_skip (stk : List Element) (h : stk.length ≠ 1) :
    ∀ out, maybe_end_plist ⟨stk, out⟩ = (⟨stk, out⟩, none) := by
  intro out
  simp [maybe_end_plist, h]

/-- Writing a concatenation of event sequences: when the first part
succeeds, continue from its final state. -/
theorem writeAll_append (C : Codecs ρ δ) (es1 es2 : List (PlistEvent ρ δ)) :
    ∀ st st1, writeAll C st es1 = (st1, none) →
    writeAll C st (es1 ++ es2) = writeAll C st1 es2 := by
  induction es1 with
  | nil =>
    intro st st1 h
    simp only [writeAll] at h
    cases h
    simp
  | cons e es ih =>
    intro st st1 h
    simp only [writeAll, List.cons_append] at h ⊢
    cases hw : write C st e with
    | mk st2 err =>
      cases err with
      | none => rw [hw] at h; exact ih st2 st1 h
      | some err => rw [hw] at h; exact absurd h (by simp)

mutual

/-- The writer accepts a complete value in any valid context, leaves the
post-value stack and emits exactly the value's tokens (root-wrapped at top
level). -/
theorem writeAll_value (C : Codecs ρ δ) (v : PValue ρ δ) :
    ∀ (out : List XmlToken) (ctx : List Element), ValidCtx ctx →
    writeAll C ⟨ctx, out⟩ (toEvents v) =
      (⟨postCtx ctx, out ++ wrapCtx ctx (vTok C v)⟩, none) := by
  intro out ctx hctx
  cases v with
  | arr hint items =>
    cases hctx with
    | empty =>
      have h1 : writeAll C ⟨[], out⟩ (toEvents (.arr hint items)) =
          writeAll C ⟨[Element.Array, Element.Root],
            out ++ [plistOpenToken, .StartElement "array" []]⟩
            (toEventsList items ++ [.EndArray]) := by
        simp [toEvents, writeAll, write, dispatchEvent, maybe_end_plist]
      rw [h1, writeAll_append C _ _ _ _
        (writeAll_items C items _ [Element.Root] (by simp))]
      simp [writeAll, write, dispatchEvent, maybe_end_plist, postCtx,
        wrapCtx, vTok]
    | arr rest hrest =>
      have h1 : writeAll C ⟨Element.Array :: rest, out⟩
          (toEvents (.arr hint items)) =
          writeAll C ⟨Element.Array :: Element.Array :: rest,
            out ++ [.StartElement "array" []]⟩
            (toEventsList items ++ [.EndArray]) := by
        simp [toEvents, writeAll, write, dispatchEvent, maybe_end_plist]
      rw [h1, writeAll_append C _ _ _ _
        (writeAll_items C items _ (Element.Array :: rest) (by simp))]
      have h2 : (Element.Array :: rest).length ≠ 1 := by simpa using hrest
      simp [writeAll, write, dispatchEvent, maybe_end_plist_skip _ h2,
        postCtx, preCtx, wrapCtx, vTok]
    | dict rest hrest =>
      have h1 : writeAll C ⟨Element.Dictionary .ExpectValue :: rest, out⟩
          (toEvents (.arr hint items)) =
          writeAll C ⟨Element.Array :: Element.Dictionary .ExpectKey :: rest,
            out ++ [.StartElement "array" []]⟩
            (toEventsList items ++ [.EndArray]) := by
        simp [toEvents, writeAll, write, dispatchEvent, maybe_end_plist]
      rw [h1, writeAll_append C _ _ _ _
        (writeAll_items C items _ (Element.Dictionary .ExpectKey :: rest)
          (by simp))]
      have h2 : (Element.Dictionary .ExpectKey :: rest).length ≠ 1 := by simpa using hrest
      simp [writeAll, write, dispatchEvent, maybe_end_plist_skip _ h2,
        postCtx, preCtx, wrapCtx, vTok]
  | dict hint prs =>
    cases hctx with
    | empty =>
      have h1 : writeAll C ⟨[], out⟩ (toEvents (.dict hint prs)) =
          writeAll C ⟨[Element.Dictionary .ExpectKey, Element.Root],
            out ++ [plistOpenToken, .StartElement "dict" []]⟩
            (toEventsPairs prs ++ [.EndDictionary]) := by
        simp [toEvents, writeAll, write, dispatchEvent, maybe_end_plist]
      rw [h1, writeAll_append C _ _ _ _
        (writeAll_pairs C prs _ [Element.Root] (by simp))]
      simp [writeAll, write, maybe_end_plist, postCtx, wrapCtx, vTok]
    | arr rest hrest =>
      have h1 : writeAll C ⟨Element.Array :: rest, out⟩
          (toEvents (.dict hint prs)) =
          writeAll C ⟨Element.Dictionary .ExpectKey :: Element.Array :: rest,
            out ++ [.StartElement "dict" []]⟩
            (toEventsPairs prs ++ [.EndDictionary]) := by
        simp [toEvents, writeAll, write, dispatchEvent, maybe_end_plist]
      rw [h1, writeAll_append C _ _ _ _
        (writeAll_pairs C prs _ (Element.Array :: rest) (by simp))]
      have h2 : (Element.Array :: rest).length ≠ 1 := by simpa using hrest
      simp [writeAll, write, maybe_end_plist_skip _ h2, postCtx, preCtx,
        wrapCtx, vTok]
    | dict rest hrest =>
      have h1 : writeAll C ⟨Element.Dictionary .ExpectValue :: rest, out⟩
          (toEvents (.dict hint prs)) =
          writeAll C
            ⟨Element.Dictionary .ExpectKey ::
              Element.Dictionary .ExpectKey :: rest,
              out ++ [.StartElement "dict" []]⟩
            (toEventsPairs prs ++ [.EndDictionary]) := by
        simp [toEvents, writeAll, write, dispatchEvent, maybe_end_plist]
      rw [h1, writeAll_append C _ _ _ _
        (writeAll_pairs C prs _ (Element.Dictionary .ExpectKey :: rest)
          (by simp))]
      have h2 : (Element.Dictionary .ExpectKey :: rest).length ≠ 1 := by simpa using hrest
      simp [writeAll, write, maybe_end_plist_skip _ h2, postCtx, preCtx,
        wrapCtx, vTok]
  | bool b =>
    cases hctx with
    | empty =>
      cases b <;>
        simp [toEvents, writeAll, write, dispatchEvent, maybe_end_plist,
          postCtx, wrapCtx, vTok]
    | arr rest hrest =>
      have h2 : (Element.Array :: rest).length ≠ 1 := by simpa using hrest
      cases b <;>
        simp [toEvents, writeAll, write, dispatchEvent,
          maybe_end_plist_skip _ h2, postCtx, preCtx, wrapCtx, vTok]
    | dict rest hrest =>
      have h2 : (Element.Dictionary .ExpectKey :: rest).length ≠ 1 := by simpa using hrest
      cases b <;>
        simp [toEvents, writeAll, write, dispatchEvent,
          maybe_end_plist_skip _ h2, postCtx, preCtx, wrapCtx, vTok]
  | int i =>
    cases hctx with
    | empty =>
      simp [toEvents, writeAll, write, dispatchEvent, maybe_end_plist,
        postCtx, wrapCtx, vTok]
    | arr rest hrest =>
      have h2 : (Element.Array :: rest).length ≠ 1 := by simpa using hrest
      simp [toEvents, writeAll, write, dispatchEvent,
        maybe_end_plist_skip _ h2, postCtx, preCtx, wrapCtx, vTok]
    | dict rest hrest =>
      have h2 : (Element.Dictionary .ExpectKey :: rest).length ≠ 1 := by simpa using hrest
      simp [toEvents, writeAll, write, dispatchEvent,
        maybe_end_plist_skip _ h2, postCtx, preCtx, wrapCtx, vTok]
  | real r =>
    cases hctx with
    | empty =>
      simp [toEvents, writeAll, write, dispatchEvent, maybe_end_plist,
        postCtx, wrapCtx, vTok]
    | arr rest hrest =>
      have h2 : (Element.Array :: rest).length ≠ 1 := by simpa using hrest
      simp [toEvents, writeAll, write, dispatchEvent,
        maybe_end_plist_skip _ h2, postCtx, preCtx, wrapCtx, vTok]
    | dict rest hrest =>
      have h2 : (Element.Dictionary .ExpectKey :: rest).length ≠ 1 := by simpa using hrest
      simp [toEvents, writeAll, write, dispatchEvent,
        maybe_end_plist_skip _ h2, postCtx, preCtx, wrapCtx, vTok]
  | str s =>
    cases hctx with
    | empty =>
      simp [toEvents, writeAll, write, dispatchEvent, maybe_end_plist,
        postCtx, wrapCtx, vTok]
    | arr rest hrest =>
      have h2 : (Element.Array :: rest).length ≠ 1 := by simpa using hrest
      simp [toEvents, writeAll, write, dispatchEvent,
        maybe_end_plist_skip _ h2, postCtx, preCtx, wrapCtx, vTok]
    | dict rest hrest =>
      have h2 : (Element.Dictionary .ExpectKey :: rest).length ≠ 1 := by simpa using hrest
      simp [toEvents, writeAll, write, dispatchEvent,
        maybe_end_plist_skip _ h2, postCtx, preCtx, wrapCtx, vTok]
  | data d =>
    cases hctx with
    | empty =>
      simp [toEvents, writeAll, write, dispatchEvent, maybe_end_plist,
        postCtx, wrapCtx, vTok]
    | arr rest hrest =>
      have h2 : (Element.Array :: rest).length ≠ 1 := by simpa using hrest
      simp [toEvents, writeAll, write, dispatchEvent,
        maybe_end_plist_skip _ h2, postCtx, preCtx, wrapCtx, vTok]
    | dict rest hrest =>
      have h2 : (Element.Dictionary .ExpectKey :: rest).length ≠ 1 := by simpa using hrest
      simp [toEvents, writeAll, write, dispatchEvent,
        maybe_end_plist_skip _ h2, postCtx, preCtx, wrapCtx, vTok]
  | date d =>
    cases hctx with
    | empty =>
      simp [toEvents, writeAll, write, dispatchEvent, maybe_end_plist,
        postCtx, wrapCtx, vTok]
    | arr rest hrest =>
      have h2 : (Element.Array :: rest).length ≠ 1 := by simpa using hrest
      simp [toEvents, writeAll, write, dispatchEvent,
        maybe_end_plist_skip _ h2, postCtx, preCtx, wrapCtx, vTok]
    | dict rest hrest =>
      have h2 : (Element.Dictionary .ExpectKey :: rest).length ≠ 1 := by simpa using hrest
      simp [toEvents, writeAll, write, dispatchEvent,
        maybe_end_plist_skip _ h2, postCtx, preCtx, wrapCtx, vTok]

/-- The writer accepts a run of array items in an open-array context,
restoring the context and emitting the items' tokens in order. -/
theorem writeAll_items (C : Codecs ρ δ) (vs : List (PValue ρ δ)) :
    ∀ (out : List XmlToken) (rest : List Element), rest ≠ [] →
    writeAll C ⟨Element.Array :: rest, out⟩ (toEventsList vs) =
      (⟨Element.Array :: rest, out ++ vTokList C vs⟩, none) := by
  intro out rest hrest
  cases vs with
  | nil => simp [toEventsList, writeAll, vTokList]
  | cons v vs =>
    rw [toEventsList, writeAll_append C _ _ _ _
      (writeAll_value C v out (Element.Array :: rest)
        (ValidCtx.arr rest hrest))]
    rw [postCtx, if_neg (by simp),
      show preCtx (Element.Array :: rest) = Element.Array :: rest from rfl]
    rw [writeAll_items C vs _ rest hrest]
    simp [wrapCtx, vTokList, List.append_assoc]

/-- The writer accepts a run of key/value pairs in an expect-key dictionary
context, restoring the context and emitting key elements and value tokens
in order. -/
theorem writeAll_pairs (C : Codecs ρ δ) (prs : List (String × PValue ρ δ)) :
    ∀ (out : List XmlToken) (rest : List Element), rest ≠ [] →
    writeAll C ⟨Element.Dictionary .ExpectKey :: rest, out⟩
      (toEventsPairs prs) =
      (⟨Element.Dictionary .ExpectKey :: rest, out ++ vTokPairs C prs⟩,
        none) := by
  intro out rest hrest
  cases prs with
  | nil => simp [toEventsPairs, writeAll, vTokPairs]
  | cons pr prs =>
    obtain ⟨k, v⟩ := pr
    have h1 : writeAll C ⟨Element.Dictionary .ExpectKey :: rest, out⟩
        (toEventsPairs ((k, v) :: prs)) =
        writeAll C ⟨Element.Dictionary .ExpectValue :: rest,
          out ++ keyTokens k⟩ (toEvents v ++ toEventsPairs prs) := by
      simp [toEventsPairs, writeAll, write]
    rw [h1, writeAll_append C _ _ _ _
      (writeAll_value C v _ (Element.Dictionary .ExpectValue :: rest)
        (ValidCtx.dict rest hrest))]
    rw [postCtx, if_neg (by simp),
      show preCtx (Element.Dictionary .ExpectValue :: rest) =
        Element.Dictionary .ExpectKey :: rest from rfl]
    rw [writeAll_pairs C prs _ rest hrest]
    simp [wrapCtx, vTokPairs, keyTokens, List.append_assoc]

end

/-- One reader step: an array start tag. -/
theorem parseEvents_array_open (C : Codecs ρ δ) (ts : List XmlToken)
    (st : List String) :
    parseEvents C (.StartElement "array" [] :: ts) st =
      .ok (.StartArray none) :: parseEvents C ts ("array" :: st) := by
  rw [parseEvents.eq_def]
  simp

/-- One reader step: an array end tag over a matching stack top. -/
theorem parseEvents_array_close (C : Codecs ρ δ) (ts : List XmlToken)
    (st : List String) :
    parseEvents C (.EndElement "array" :: ts) ("array" :: st) =
      .ok .EndArray :: parseEvents C ts st := by
  simp [parseEvents]

/-- One reader step: a dictionary start tag. -/
theorem parseEvents_dict_open (C : Codecs ρ δ) (ts : List XmlToken)
    (st : List String) :
    parseEvents C (.StartElement "dict" [] :: ts) st =
      .ok (.StartDictionary none) :: parseEvents C ts ("dict" :: st) := by
  rw [parseEvents.eq_def]
  simp

/-- One reader step: a dictionary end tag over a matching stack top. -/
theorem parseEvents_dict_close (C : Codecs ρ δ) (ts : List XmlToken)
    (st : List String) :
    parseEvents C (.EndElement "dict" :: ts) ("dict" :: st) =
      .ok .EndDictionary :: parseEvents C ts st := by
  simp [parseEvents]

/-- One reader step: the root start tag. -/
theorem parseEvents_plist_open (C : Codecs ρ δ)
    (attrs : List (String × String)) (ts : List XmlToken) (st : List String) :
    parseEvents C (.StartElement "plist" attrs :: ts) st =
      .ok .StartPlist :: parseEvents C ts ("plist" :: st) := by
  rw [parseEvents.eq_def]
  simp

/-- One reader step: the root end tag over a matching stack top. -/
theorem parseEvents_plist_close (C : Codecs ρ δ) (ts : List XmlToken)
    (st : List String) :
    parseEvents C (.EndElement "plist" :: ts) ("plist" :: st) =
      .ok .EndPlist :: parseEvents C ts st := by
  simp [parseEvents]

/-- A complete key element: its text comes back as a `String` event and the
closing key tag is consumed silently. -/
theorem parseEvents_keyElement (C : Codecs ρ δ) (k : String)
    (ts : List XmlToken) (st : List String) :
    parseEvents C
      (.StartElement "key" [] :: .Characters k :: .EndElement "key" :: ts)
      st = .ok (.StringValue k) :: parseEvents C ts st := by
  simp [parseEvents]

/-- The collector `parseEvents` agrees with the single-step iterator
`parserNext` of the source: it yields exactly what driving `next` to the
end of the sequence or the first error yields. -/
theorem parseEvents_next (C : Codecs ρ δ) :
    ∀ (ts : List XmlToken) (stack : List String),
    parseEvents C ts stack =
      match parserNext C ts stack with
      | none => []
      | some (.error e, _, _) => [.error e]
      | some (.ok ev, ts2, st2) => .ok ev :: parseEvents C ts2 st2 := by
  intro ts
  induction ts with
  | nil =>
    intro stack
    by_cases h : stack = [] <;> simp [parseEvents, parserNext, h]
  | cons tok ts ih =>
    intro stack
    cases tok with
    | Characters s =>
      rw [show parseEvents C (.Characters s :: ts) stack =
          parseEvents C ts stack from by rw [parseEvents.eq_def]]
      rw [show parserNext C (.Characters s :: ts) stack =
          parserNext C ts stack from by rw [parserNext.eq_def]]
      exact ih stack
    | Skipped =>
      rw [show parseEvents C (.Skipped :: ts) stack =
          parseEvents C ts stack from by rw [parseEvents.eq_def]]
      rw [show parserNext C (.Skipped :: ts) stack =
          parserNext C ts stack from by rw [parserNext.eq_def]]
      exact ih stack
    | EndElement name =>
      rcases stack with - | ⟨top, rest⟩
      · rfl
      · by_cases ht : top = name
        · subst ht
          rw [parseEvents.eq_def, parserNext.eq_def]
          dsimp only
          split_ifs <;> first | rfl | exact ih rest
        · simp [parseEvents, parserNext, ht]
    | StartElement name attrs =>
      rw [parseEvents.eq_def, parserNext.eq_def]
      dsimp only [readContent]
      by_cases h1 : name = "plist"
      · subst h1; rfl
      ·
        by_cases h2 : name = "array"
        · subst h2; rfl
        ·
          by_cases h3 : name = "dict"
          · subst h3; rfl
          ·
            by_cases h4 : name = "key"
            · subst h4
              rcases ts with - | ⟨tok2, ts2⟩
              · rfl
              · cases tok2 <;> rfl
            ·
              by_cases h5 : name = "true"
              · subst h5; rfl
              ·
                by_cases h6 : name = "false"
                · subst h6; rfl
                ·
                  by_cases h7 : name = "data"
                  · subst h7
                    rcases ts with - | ⟨tok2, ts2⟩
                    · rfl
                    · cases tok2 with
                      | StartElement n2 a2 => rfl
                      | EndElement n2 => rfl
                      | Characters s => cases hdec : C.dataDec s <;> simp [hdec]
                      | Skipped => rfl
                  ·
                    by_cases h8 : name = "date"
                    · subst h8
                      rcases ts with - | ⟨tok2, ts2⟩
                      · rfl
                      · cases tok2 with
                        | StartElement n2 a2 => rfl
                        | EndElement n2 => rfl
                        | Characters s => cases hdec : C.dateDec s <;> simp [hdec]
                        | Skipped => rfl
                    ·
                      by_cases h9 : name = "integer"
                      · subst h9
                        rcases ts with - | ⟨tok2, ts2⟩
                        · rfl
                        · cases tok2 with
                          | StartElement n2 a2 => rfl
                          | EndElement n2 => rfl
                          | Characters s => cases hdec : C.intDec s <;> simp [hdec]
                          | Skipped => rfl
                      ·
                        by_cases h10 : name = "real"
                        · subst h10
                          rcases ts with - | ⟨tok2, ts2⟩
                          · rfl
                          · cases tok2 with
                            | StartElement n2 a2 => rfl
                            | EndElement n2 => rfl
                            | Characters s => cases hdec : C.realDec s <;> simp [hdec]
                            | Skipped => rfl
                        ·
                          by_cases h11 : name = "string"
                          · subst h11
                            rcases ts with - | ⟨tok2, ts2⟩
                            · rfl
                            · cases tok2 <;> rfl
                          ·
                            simp only [if_neg h1, if_neg h2, if_neg h3,
                              if_neg h4, if_neg h5, if_neg h6, if_neg h7,
                              if_neg h8, if_neg h9, if_neg h10, if_neg h11]

mutual

/-- The reader turns a value's tokens back into the value's events — with
its container hints erased to `none` — and then continues with whatever
tokens follow, provided the external codecs decode what they encoded at the
payloads of this value. -/
theorem parse_value (C : Codecs ρ δ) [DecidableEq ρ] [DecidableEq δ]
    (v : PValue ρ δ) (h : roundtripsB C v = true) :
    ∀ (ts : List XmlToken) (stack : List String),
    parseEvents C (vTok C v ++ ts) stack =
      (toEvents (eraseHints v)).map Except.ok ++ parseEvents C ts stack := by
  intro ts stack
  cases v with
  | bool b =>
    cases b <;> simp [vTok, parseEvents, eraseHints, toEvents]
  | int i =>
    simp only [roundtripsB, decide_eq_true_eq] at h
    simp [vTok, elementAndValue, parseEvents, h, eraseHints, toEvents]
  | real r =>
    simp only [roundtripsB, decide_eq_true_eq] at h
    simp [vTok, elementAndValue, parseEvents, h, eraseHints, toEvents]
  | str s =>
    simp [vTok, elementAndValue, parseEvents, eraseHints, toEvents]
  | data d =>
    simp only [roundtripsB, decide_eq_true_eq] at h
    simp [vTok, elementAndValue, parseEvents, h, eraseHints, toEvents]
  | date d =>
    simp only [roundtripsB, decide_eq_true_eq] at h
    simp [vTok, elementAndValue, parseEvents, h, eraseHints, toEvents]
  | arr hint items =>
    simp only [roundtripsB] at h
    rw [vTok]
    simp only [List.cons_append, List.append_assoc, List.singleton_append]
    rw [parseEvents_array_open, parse_items C items h, parseEvents_array_close]
    simp [eraseHints, toEvents]
  | dict hint prs =>
    simp only [roundtripsB] at h
    rw [vTok]
    simp only [List.cons_append, List.append_assoc, List.singleton_append]
    rw [parseEvents_dict_open, parse_pairs C prs h, parseEvents_dict_close]
    simp [eraseHints, toEvents]

/-- Lemma `parse_value` lifted to a run of array items. -/
theorem parse_items (C : Codecs ρ δ) [DecidableEq ρ] [DecidableEq δ]
    (vs : List (PValue ρ δ)) (h : roundtripsListB C vs = true) :
    ∀ (ts : List XmlToken) (stack : List String),
    parseEvents C (vTokList C vs ++ ts) stack =
      (toEventsList (eraseHintsList vs)).map Except.ok ++
        parseEvents C ts stack := by
  intro ts stack
  cases vs with
  | nil => simp [vTokList, toEventsList, eraseHintsList]
  | cons v vs =>
    simp only [roundtripsListB, Bool.and_eq_true] at h
    rw [vTokList, List.append_assoc, parse_value C v h.1,
      parse_items C vs h.2]
    simp [toEventsList, eraseHintsList]

/-- Lemma `parse_value` lifted to a run of dictionary entries: each key element comes
back as its `String` event, followed by the value's events. -/
theorem parse_pairs (C : Codecs ρ δ) [DecidableEq ρ] [DecidableEq δ]
    (prs : List (String × PValue ρ δ)) (h : roundtripsPairsB C prs = true) :
    ∀ (ts : List XmlToken) (stack : List String),
    parseEvents C (vTokPairs C prs ++ ts) stack =
      (toEventsPairs (eraseHintsPairs prs)).map Except.ok ++
        parseEvents C ts stack := by
  intro ts stack
  cases prs with
  | nil => simp [vTokPairs, toEventsPairs, eraseHintsPairs]
  | cons pr prs =>
    obtain ⟨k, v⟩ := pr
    simp only [roundtripsPairsB, Bool.and_eq_true] at h
    rw [vTokPairs]
    simp only [keyTokens, elementAndValue, List.cons_append,
      List.append_assoc, List.singleton_append, List.nil_append]
    rw [parseEvents_keyElement, parse_value C v h.1, parse_pairs C prs h.2]
    simp [toEventsPairs, eraseHintsPairs]

end

/-- CLAIM C1 — round trip: writing any well-formed event sequence (the
serialization of a value tree) succeeds, and reading the produced token
stream back yields the same events in the same order — wrapped in the
document events the writer supplied — except that every container hint,
written `some n` or `none`, is read back as `none`.  The hypothesis is the
round-trip contract of the external payload codecs at the values used. -/
theorem claim_C1 (C : Codecs ρ δ) [DecidableEq ρ] [DecidableEq δ]
    (v : PValue ρ δ) (h : roundtripsB C v = true) :
    (writeAll C ⟨[], []⟩ (toEvents v)).2 = none
    ∧ parseEvents C (writeAll C ⟨[], []⟩ (toEvents v)).1.out [] =
        .ok .StartPlist ::
          ((toEvents (eraseHints v)).map Except.ok ++ [.ok .EndPlist]) := by
  rw [writeAll_value C v [] [] ValidCtx.empty]
  refine ⟨rfl, ?_⟩
  rw [show ([] : List XmlToken) ++ wrapCtx [] (vTok C v) =
      XmlToken.StartElement "plist" [("version", "1.0")] ::
        (vTok C v ++ [XmlToken.EndElement "plist"]) from rfl]
  rw [parseEvents_plist_open, parse_value C v h, parseEvents_plist_close]
  simp [parseEvents]

/-- Witness for C1: the sample document (a dictionary with integer, array,
boolean, real, data, date and string members, hints present) written and
read back. -/
theorem claim_C1_witness :
    roundtripsB testCodecs sampleValue = true
    ∧ ((writeAll testCodecs ⟨[], []⟩ (toEvents sampleValue)).2 = none
      ∧ parseEvents testCodecs
          (writeAll testCodecs ⟨[], []⟩ (toEvents sampleValue)).1.out [] =
          .ok .StartPlist ::
            ((toEvents (eraseHints sampleValue)).map Except.ok ++
              [.ok .EndPlist])) :=
  ⟨by decide, claim_C1 testCodecs sampleValue (by decide)⟩

end Plist


